import Mathlib

/-!
Verification of the MAX78000 horse-or-human classifier pipeline.

Shallow embedding of the C sources:
  * `src/src/camera_utils.c`    — streaming capture / pixel packing
  * `src/src/inference_utils.c` — accelerator result interpretation
  * `src/src/serial_stream.c`   — PPM / hex / base64 frame exporters
  * `src/src/display_utils.c`   — ASCII-art preview renderers
  * `src/main.c`                — single-capture control flow

Machine integers are modelled as `Nat` (unsigned) or `Int` (signed);
buffers as functions `Nat → Nat` whose values are in range by the C type
of the buffer element (noted at each use).  Console output is modelled
as the `List Char` a function emits via `printf`/`putchar`.
-/

/-! ## PixelCodec  (camera_utils.c lines 92-94, serial_stream.c lines 74-78)

`camera_utils_capture` packs one RGB sample as `(B<<16)|(G<<8)|R` and
XORs with `0x00808080`; every exporter decodes by XORing again and
unpacking the three bytes. -/

/-- Pack three channel bytes exactly as `camera_utils_capture` does:
`cnn_buffer[cnt] = (b<<16)|(g<<8)|r; cnn_buffer[cnt] ^= 0x00808080U`. -/
def pixel_pack (r g b : Nat) : Nat :=
  (((b <<< 16) ||| (g <<< 8)) ||| r) ^^^ 0x00808080

/-- Unpack a CNN-buffer word exactly as the exporters do:
`pixel = word ^ 0x00808080U; r = pixel & 0xFF; g = (pixel >> 8) & 0xFF;
b = (pixel >> 16) & 0xFF` (serial_stream.c lines 74-78). -/
def pixel_decode (p : Nat) : Nat × Nat × Nat :=
  let pixel := p ^^^ 0x00808080
  (pixel &&& 0xFF, (pixel >>> 8) &&& 0xFF, (pixel >>> 16) &&& 0xFF)

/-- Right shift distributes over bitwise or. -/
lemma lor_shiftRight (a b n : Nat) : (a ||| b) >>> n = (a >>> n) ||| (b >>> n) :=
  Nat.eq_of_testBit_eq fun i => by
    simp [Nat.testBit_lor, Nat.testBit_shiftRight]

/-- Reduction mod a power of two distributes over bitwise or. -/
lemma lor_mod_two_pow (a b n : Nat) : (a ||| b) % 2 ^ n = a % 2 ^ n ||| b % 2 ^ n :=
  Nat.eq_of_testBit_eq fun i => by
    simp [Nat.testBit_mod_two_pow, Nat.testBit_lor, Bool.and_or_distrib_left]

/-- Masking with `0xFF` is reduction mod 256. -/
lemma and_255_eq_mod (x : Nat) : x &&& 255 = x % 256 := by
  have h := Nat.and_pow_two_sub_one_eq_mod x 8
  norm_num at h
  exact h

/-- Reduction mod 256 distributes over bitwise or. -/
lemma lor_mod_256 (a b : Nat) : (a ||| b) % 256 = a % 256 ||| b % 256 := by
  have h := lor_mod_two_pow a b 8
  norm_num at h
  exact h

/-- Byte extraction from the raw packed word `(b<<16)|(g<<8)|r`. -/
lemma pack_bytes (r g b : Nat) (hr : r < 256) (hg : g < 256) (hb : b < 256) :
    ((((b <<< 16) ||| (g <<< 8)) ||| r) &&& 255 = r) ∧
    (((((b <<< 16) ||| (g <<< 8)) ||| r) >>> 8) &&& 255 = g) ∧
    (((((b <<< 16) ||| (g <<< 8)) ||| r) >>> 16) &&& 255 = b) := by
  have p8 : (2 : Nat) ^ 8 = 256 := by norm_num
  have p16 : (2 : Nat) ^ 16 = 65536 := by norm_num
  have h16 : b <<< 16 = b * 65536 := by rw [Nat.shiftLeft_eq, p16]
  have h8 : g <<< 8 = g * 256 := by rw [Nat.shiftLeft_eq, p8]
  refine ⟨?_, ?_, ?_⟩
  · rw [and_255_eq_mod, lor_mod_256, lor_mod_256]
    have e1 : b <<< 16 % 256 = 0 := by rw [h16]; omega
    have e2 : g <<< 8 % 256 = 0 := by rw [h8]; omega
    have e3 : r % 256 = r := by omega
    rw [e1, e2, e3, Nat.zero_or, Nat.zero_or]
  · rw [lor_shiftRight, lor_shiftRight, and_255_eq_mod]
    have e1 : b <<< 16 >>> 8 = b * 256 := by
      rw [h16, Nat.shiftRight_eq_div_pow, p8]; omega
    have e2 : g <<< 8 >>> 8 = g := by
      rw [h8, Nat.shiftRight_eq_div_pow, p8]; omega
    have e3 : r >>> 8 = 0 := by
      rw [Nat.shiftRight_eq_div_pow, p8]; omega
    rw [e1, e2, e3, Nat.or_zero, lor_mod_256]
    have e4 : b * 256 % 256 = 0 := by omega
    have e5 : g % 256 = g := by omega
    rw [e4, e5, Nat.zero_or]
  · rw [lor_shiftRight, lor_shiftRight, and_255_eq_mod]
    have e1 : b <<< 16 >>> 16 = b := by
      rw [h16, Nat.shiftRight_eq_div_pow, p16]; omega
    have e2 : g <<< 8 >>> 16 = 0 := by
      rw [h8, Nat.shiftRight_eq_div_pow, p16]; omega
    have e3 : r >>> 16 = 0 := by
      rw [Nat.shiftRight_eq_div_pow, p16]; omega
    rw [e1, e2, e3, Nat.or_zero, Nat.or_zero]
    omega

/-- C1: PixelCodec round-trip — packing a byte triple as
`(b<<16)|(g<<8)|r` XOR `0x00808080` (as `camera_utils_capture` does) and
decoding by XOR with `0x00808080` followed by byte unpacking (as the
exporters do) recovers exactly the original triple. -/
theorem pixel_codec_roundtrip (r g b : Nat) (hr : r < 256) (hg : g < 256) (hb : b < 256) :
    pixel_decode (pixel_pack r g b) = (r, g, b) := by
  unfold pixel_pack pixel_decode
  rw [Nat.xor_cancel_right]
  obtain ⟨e1, e2, e3⟩ := pack_bytes r g b hr hg hb
  simp only [e1, e2, e3]

/-- C1 witness: the round-trip at the concrete triple (255, 0, 128). -/
theorem pixel_codec_roundtrip_witness :
    pixel_decode (pixel_pack 255 0 128) = (255, 0, 128) :=
  pixel_codec_roundtrip 255 0 128 (by decide) (by decide) (by decide)

/-! ## ResultInterpreter  (inference_utils.c lines 102-117)

`inference_wait` scans `result->softmax` (a vector of `q15_t` values)
keeping the first strictly-greater value:

    max_val = result->softmax[0];
    max_idx = 0;
    for (i = 1; i < CNN_NUM_OUTPUTS; i++) {
        if (result->softmax[i] > max_val) { max_val = ...; max_idx = i; }
    }
    result->predicted_class = max_idx;
    result->confidence_percent = (max_val * 100) >> 15;

The softmax vector is modelled as a `List Int` (q15_t values are signed
16-bit, within `Int`); the loop as structural recursion over the list
tail carrying the loop state `(i, max_idx, max_val)`. -/

/-- Loop body of the arg-max scan in `inference_wait`: `xs` is the part
of the vector not yet visited, `i` the index of its head, `maxIdx` and
`maxVal` the current leader.  A later value replaces the leader only
when strictly greater (`softmax[i] > max_val`). -/
def inference_argmax_loop : List Int → Nat → Nat → Int → Nat × Int
  | [], _, maxIdx, maxVal => (maxIdx, maxVal)
  | x :: rest, i, maxIdx, maxVal =>
    if x > maxVal then inference_argmax_loop rest (i + 1) i x
    else inference_argmax_loop rest (i + 1) maxIdx maxVal

/-- Arg-max of `inference_wait`, starting from `softmax[0]` as leader.
The C code always reads `softmax[0]`; the empty case is unreachable
(`CNN_NUM_OUTPUTS ≥ 1`) and modelled as `(0, 0)`. -/
def inference_argmax (v : List Int) : Nat × Int :=
  match v with
  | [] => (0, 0)
  | x :: rest => inference_argmax_loop rest 1 0 x

/-- Confidence conversion of `inference_wait`:
`result->confidence_percent = (max_val * 100) >> 15`, an arithmetic
(sign-preserving, flooring) right shift on `int`. -/
def inference_confidence (maxVal : Int) : Int :=
  (maxVal * 100) >>> (15 : Nat)

/-- Invariant-carrying specification of the arg-max loop: if the state
describes a correct first-maximum of the first `i` entries of `v` and
`xs` is the rest of `v`, the loop returns a correct first-maximum of all
of `v`. -/
lemma inference_argmax_loop_spec (xs : List Int) (v : List Int) (i maxIdx : Nat)
    (maxVal : Int)
    (hi : i ≤ v.length) (hxs : xs = v.drop i) (hmi : maxIdx < i)
    (hval : v.getD maxIdx 0 = maxVal)
    (hub : ∀ j < i, v.getD j 0 ≤ maxVal)
    (hlt : ∀ j < maxIdx, v.getD j 0 < maxVal) :
    (inference_argmax_loop xs i maxIdx maxVal).1 < v.length ∧
    v.getD (inference_argmax_loop xs i maxIdx maxVal).1 0 =
      (inference_argmax_loop xs i maxIdx maxVal).2 ∧
    (∀ j < v.length, v.getD j 0 ≤ (inference_argmax_loop xs i maxIdx maxVal).2) ∧
    (∀ j < (inference_argmax_loop xs i maxIdx maxVal).1,
      v.getD j 0 < (inference_argmax_loop xs i maxIdx maxVal).2) := by
  induction xs generalizing i maxIdx maxVal with
  | nil =>
    simp only [inference_argmax_loop]
    have hlen : v.length ≤ i := by
      by_contra hc
      push_neg at hc
      have : (v.drop i).length = v.length - i := List.length_drop i v
      rw [← hxs] at this
      simp at this
      omega
    have hieq : i = v.length := le_antisymm hi hlen
    subst hieq
    exact ⟨by omega, hval, fun j hj => hub j hj, hlt⟩
  | cons x rest ih =>
    have hil : i < v.length := by
      by_contra hc
      push_neg at hc
      have : v.drop i = [] := List.drop_eq_nil_of_le hc
      rw [this] at hxs
      exact List.noConfusion hxs
    have hx : v.getD i 0 = x := by
      have h1 : v.drop i = x :: rest := hxs.symm
      have h2 : (v.drop i).getD 0 0 = x := by rw [h1]; rfl
      have h3 : (v.drop i).getD 0 0 = v.getD i 0 := by
        have hlt0 : 0 < (v.drop i).length := by rw [h1]; simp
        rw [List.getD_eq_getElem _ _ hlt0, List.getElem_drop,
          List.getD_eq_getElem _ _ (by omega)]
        simp
      rw [← h3, h2]
    have hrest : rest = v.drop (i + 1) := by
      have : (v.drop i).tail = v.drop (i + 1) := List.tail_drop v i
      rw [← hxs] at this
      simpa using this
    unfold inference_argmax_loop
    by_cases hgt : x > maxVal
    · rw [if_pos hgt]
      exact ih (i + 1) i x (by omega) hrest (by omega) hx
        (fun j hj => by
          rcases Nat.lt_succ_iff_lt_or_eq.mp hj with h | h
          · exact le_of_lt (lt_of_le_of_lt (hub j h) hgt)
          · subst h; rw [hx])
        (fun j hj => lt_of_le_of_lt (hub j hj) hgt)
    · rw [if_neg hgt]
      push_neg at hgt
      exact ih (i + 1) maxIdx maxVal (by omega) hrest (by omega) hval
        (fun j hj => by
          rcases Nat.lt_succ_iff_lt_or_eq.mp hj with h | h
          · exact hub j h
          · subst h; rw [hx]; exact hgt)
        hlt

/-- C2: arg-max tie-break — for every (non-empty) softmax vector,
`inference_wait` selects an index holding the maximum value such that
every strictly earlier index holds a strictly smaller value; hence the
chosen index is the lowest index among all indices sharing the maximum
(a later equal value never replaces the leader, only a strictly greater
one does). -/
theorem inference_argmax_lowest_index (v : List Int) (hv : v ≠ []) :
    (inference_argmax v).1 < v.length ∧
    v.getD (inference_argmax v).1 0 = (inference_argmax v).2 ∧
    (∀ j < v.length, v.getD j 0 ≤ (inference_argmax v).2) ∧
    (∀ j < (inference_argmax v).1, v.getD j 0 < (inference_argmax v).2) := by
  match v, hv with
  | x :: rest, _ =>
    show (inference_argmax_loop rest 1 0 x).1 < (x :: rest).length ∧ _
    exact inference_argmax_loop_spec rest (x :: rest) 1 0 x
      (by simp) (by simp) (by omega) (by rfl)
      (fun j hj => by interval_cases j; simp)
      (fun j hj => by omega)

/-- C2 witness: softmax outputs `[100, 100]` give predicted class 0, and
the general theorem applies to that vector. -/
theorem inference_argmax_lowest_index_witness :
    inference_argmax [(100 : Int), 100] = (0, 100) ∧
    (inference_argmax [(100 : Int), 100]).1 < 2 ∧
    (∀ j < ([(100 : Int), 100]).length,
      ([(100 : Int), 100]).getD j 0 ≤ (inference_argmax [(100 : Int), 100]).2) :=
  ⟨by decide,
   (inference_argmax_lowest_index [100, 100] (by decide)).1,
   (inference_argmax_lowest_index [100, 100] (by decide)).2.2.1⟩

/-- Arithmetic right shift by 15 is floor division by 32768 (on `Int`,
`>>>` is the sign-preserving shift, and `/` with a positive divisor is
floor division). -/
lemma inference_confidence_eq_div (maxVal : Int) :
    inference_confidence maxVal = maxVal * 100 / 32768 := by
  unfold inference_confidence
  rw [Int.shiftRight_eq_div_pow]
  norm_num

/-- The winning value returned by the arg-max scan is an entry of the
vector. -/
lemma inference_argmax_val_mem (v : List Int) (hv : v ≠ []) :
    (inference_argmax v).2 ∈ v := by
  obtain ⟨hlen, hval, -, -⟩ := inference_argmax_lowest_index v hv
  rw [← hval, List.getD_eq_getElem _ _ hlen]
  exact List.getElem_mem hlen

/-- C3: confidence percentage — for every non-empty softmax vector of
Q15 values in `[0, 32768)`, `inference_wait` sets `confidence_percent`
to `floor(max_value * 100 / 32768)`, an integer in the range 0..100. -/
theorem inference_confidence_formula (v : List Int) (hv : v ≠ [])
    (hq : ∀ x ∈ v, 0 ≤ x ∧ x < 32768) :
    inference_confidence (inference_argmax v).2 =
      (inference_argmax v).2 * 100 / 32768 ∧
    0 ≤ inference_confidence (inference_argmax v).2 ∧
    inference_confidence (inference_argmax v).2 ≤ 100 := by
  have hmem := inference_argmax_val_mem v hv
  obtain ⟨h0, h1⟩ := hq _ hmem
  refine ⟨inference_confidence_eq_div _, ?_, ?_⟩
  · rw [inference_confidence_eq_div]; omega
  · rw [inference_confidence_eq_div]; omega

/-- C3 witness: the vector `[16384, 8192]` satisfies the Q15 range
hypothesis and its reported confidence is `16384 * 100 / 32768 = 50`. -/
theorem inference_confidence_formula_witness :
    inference_confidence (inference_argmax [(16384 : Int), 8192]).2 =
      (inference_argmax [(16384 : Int), 8192]).2 * 100 / 32768 ∧
    0 ≤ inference_confidence (inference_argmax [(16384 : Int), 8192]).2 ∧
    inference_confidence (inference_argmax [(16384 : Int), 8192]).2 ≤ 100 :=
  inference_confidence_formula [16384, 8192] (by decide)
    (by intro x hx; fin_cases hx <;> constructor <;> decide)

/-- C9: confidence monotonicity — increasing the winning class's value
while holding all other entries fixed never decreases the reported
confidence percentage. -/
theorem inference_confidence_monotone (v : List Int) (hv : v ≠ []) (d : Int)
    (hd : 0 ≤ d) :
    inference_confidence (inference_argmax v).2 ≤
      inference_confidence
        (inference_argmax
          (v.set (inference_argmax v).1
            (v.getD (inference_argmax v).1 0 + d))).2 := by
  obtain ⟨hlen, hval, hub, -⟩ := inference_argmax_lowest_index v hv
  set j := (inference_argmax v).1 with hj
  set v' := v.set j (v.getD j 0 + d) with hv'
  have hlen' : v'.length = v.length := List.length_set v j _
  have hne' : v' ≠ [] := by
    intro h
    rw [h] at hlen'
    simp at hlen'
    exact hv (List.eq_nil_of_length_eq_zero hlen'.symm)
  obtain ⟨-, -, hub', -⟩ := inference_argmax_lowest_index v' hne'
  have hjlt : j < v'.length := by omega
  have hget : v'.getD j 0 = v.getD j 0 + d := by
    rw [List.getD_eq_getElem _ _ hjlt]
    exact List.getElem_set_self hjlt
  have hmax' : v.getD j 0 + d ≤ (inference_argmax v').2 := by
    have := hub' j hjlt
    rw [hget] at this
    exact this
  have hmono : (inference_argmax v).2 ≤ (inference_argmax v').2 := by
    rw [← hval]; omega
  rw [inference_confidence_eq_div, inference_confidence_eq_div]
  omega

/-- C9 witness: increasing the winning entry of `[100, 50]` by 32000
does not decrease the reported confidence. -/
theorem inference_confidence_monotone_witness :
    inference_confidence (inference_argmax [(100 : Int), 50]).2 ≤
      inference_confidence
        (inference_argmax
          (([(100 : Int), 50]).set (inference_argmax [(100 : Int), 50]).1
            (([(100 : Int), 50]).getD (inference_argmax [(100 : Int), 50]).1 0
              + 32000))).2 :=
  inference_confidence_monotone [100, 50] (by decide) 32000 (by decide)

/-! ## FrameAssembler  (camera_utils.c lines 52-122, `camera_utils_capture`)

The capture loop reads `h` scanlines from the camera driver; each
scanline holds `w` samples of 4 bytes `R,G,B,0` (`k` steps by 4).  For
each sample it stores the packed CNN word at flat index `cnt` guarded by
`cnt < cnn_buffer_size`, and two RGB565 bytes at indices `j`, `j+1`
guarded by `rgb565_buffer != NULL && (j+1) < rgb565_size`; `cnt` is
global across rows while `j` is reset to 0 at the start of every row.
After the loop the driver's cumulative overflow counter decides the
return status.

The driver is modelled as a `CamSource` (dimensions, scanline bytes,
final overflow counter); buffer stores are modelled as the list of
`(index, value)` pairs the function writes.  Scanline bytes are
`uint8_t`, modelled by reducing each read mod 256. -/

/-- Return status of `camera_utils_capture` (`cam_status_t`). -/
inductive CamStatus where
  | ok
  | error
  | overflow
deriving DecidableEq

/-- External camera driver as seen through `camera_get_image`,
`get_camera_stream_buffer` and `get_camera_stream_statistic`:
dimensions, scanline contents, and the cumulative overflow counter
observed after the pass. -/
structure CamSource where
  w : Nat
  h : Nat
  line : Nat → Nat → Nat
  overflow_count : Nat

/-- One scanline's samples as read by the capture loop:
`r = data[k]; g = data[k+1]; b = data[k+2]` with `k = 4*col`
(each byte reduced mod 256, the range of `uint8_t`). -/
def camera_row_pixels (src : CamSource) (row : Nat) : List (Nat × Nat × Nat) :=
  (List.range src.w).map fun col =>
    (src.line row (4 * col) % 256,
     src.line row (4 * col + 1) % 256,
     src.line row (4 * col + 2) % 256)

/-- All samples of the pass in row-major order. -/
def camera_capture_pixels (src : CamSource) : List (Nat × Nat × Nat) :=
  (List.range src.h).flatMap fun row => camera_row_pixels src row

/-- The CNN-buffer stores of the capture loop: for each sample, if
`cnt < cnn_buffer_size` store the packed pixel at index `cnt` and
increment `cnt`, else drop the sample (camera_utils.c lines 91-96).
The C code consults only the bound here — `cnn_buffer` itself is not
checked for NULL. -/
def camera_cnn_writes : List (Nat × Nat × Nat) → Nat → Nat → List (Nat × Nat)
  | [], _, _ => []
  | (r, g, b) :: rest, cnt, size =>
    if cnt < size then
      (cnt, pixel_pack r g b) :: camera_cnn_writes rest (cnt + 1) size
    else camera_cnn_writes rest cnt size

/-- RGB565 conversion of camera_utils.c line 100:
`rgb = ((r & 0b11111000) << 8) | ((g & 0b11111100) << 3) | (b >> 3)`
with the result cast to `uint16_t`. -/
def rgb565_word (r g b : Nat) : Nat :=
  ((((r &&& 0b11111000) <<< 8) ||| ((g &&& 0b11111100) <<< 3)) ||| (b >>> 3)) % 65536

/-- The display-buffer stores of one row: two bytes per sample at `j`
and `j+1`, guarded by `(j+1) < rgb565_size`, with `j` advancing by 2
(camera_utils.c lines 99-104). -/
def camera_rgb_writes_row : List (Nat × Nat × Nat) → Nat → Nat → List (Nat × Nat)
  | [], _, _ => []
  | (r, g, b) :: rest, j, size =>
    if j + 1 < size then
      (j, (rgb565_word r g b >>> 8) &&& 0xFF) ::
      (j + 1, rgb565_word r g b &&& 0xFF) ::
        camera_rgb_writes_row rest (j + 2) size
    else camera_rgb_writes_row rest j size

/-- All display-buffer stores of the pass; `j` restarts at 0 on every
row (camera_utils.c line 80). -/
def camera_rgb_writes (src : CamSource) (rgb565_size : Nat) : List (Nat × Nat) :=
  (List.range src.h).flatMap fun row =>
    camera_rgb_writes_row (camera_row_pixels src row) 0 rgb565_size

/-- Result of one call to `camera_utils_capture`: the returned status
and the stores performed into each output buffer. -/
structure CaptureResult where
  status : CamStatus
  cnnWrites : List (Nat × Nat)
  rgbWrites : List (Nat × Nat)
deriving DecidableEq

/-- Model of `camera_utils_capture`.  `cnnIsNull` and `rgbIsNull` state
whether the corresponding buffer argument is NULL.  The RGB565 stores
are guarded by `rgb565_buffer != NULL`; the CNN stores have no such
guard in the source, so `cnnIsNull` does not influence them.  The
status is `CAM_STATUS_OVERFLOW` exactly when the driver's overflow
counter is non-zero after the pass, else `CAM_STATUS_OK`
(camera_utils.c lines 111-121). -/
def camera_utils_capture (src : CamSource) (cnnIsNull : Bool)
    (cnn_buffer_size : Nat) (rgbIsNull : Bool) (rgb565_size : Nat) :
    CaptureResult :=
  { status := if src.overflow_count > 0 then CamStatus.overflow else CamStatus.ok
    cnnWrites := camera_cnn_writes (camera_capture_pixels src) 0 cnn_buffer_size
    rgbWrites :=
      if rgbIsNull then [] else camera_rgb_writes src rgb565_size }

/-- Steps of `run_single_capture` (main.c) that are visible to this
spec: the capture call, the accelerator invocation triple, and the
halt loop entered on overflow. -/
inductive AppEvent where
  | evCapture
  | evCnnStart
  | evCnnLoad
  | evCnnWait
  | evHalt
deriving DecidableEq

/-- Control flow of `run_single_capture` (main.c lines 185-221): after
`camera_utils_capture` returns `CAM_STATUS_OVERFLOW` the function
prints and spins in `while (1)`; otherwise it proceeds with
`inference_start`, `inference_load_input`, `inference_wait`. -/
def run_single_capture (src : CamSource) (cnn_size rgb_size : Nat) :
    List AppEvent :=
  let cam := camera_utils_capture src false cnn_size false rgb_size
  if cam.status = CamStatus.overflow then
    [AppEvent.evCapture, AppEvent.evHalt]
  else
    [AppEvent.evCapture, AppEvent.evCnnStart, AppEvent.evCnnLoad,
     AppEvent.evCnnWait]

/-- C4: overflow is terminal and surfaced — `camera_utils_capture`
returns `CAM_STATUS_OVERFLOW` iff the driver's cumulative overflow
counter queried after all scanlines is non-zero (else `CAM_STATUS_OK`),
and in that case `run_single_capture` never reaches the accelerator
invocation (`inference_start`/`inference_load_input`/`inference_wait`). -/
theorem camera_overflow_terminal (src : CamSource) (cnnIsNull rgbIsNull : Bool)
    (cnn_size rgb_size : Nat) :
    ((camera_utils_capture src cnnIsNull cnn_size rgbIsNull rgb_size).status =
        CamStatus.overflow ↔ src.overflow_count ≠ 0) ∧
    ((camera_utils_capture src cnnIsNull cnn_size rgbIsNull rgb_size).status ≠
        CamStatus.overflow →
      (camera_utils_capture src cnnIsNull cnn_size rgbIsNull rgb_size).status =
        CamStatus.ok) ∧
    (src.overflow_count ≠ 0 →
      AppEvent.evCnnStart ∉ run_single_capture src cnn_size rgb_size ∧
      AppEvent.evCnnLoad ∉ run_single_capture src cnn_size rgb_size ∧
      AppEvent.evCnnWait ∉ run_single_capture src cnn_size rgb_size) := by
  have hs : (camera_utils_capture src cnnIsNull cnn_size rgbIsNull rgb_size).status
      = (if src.overflow_count > 0 then CamStatus.overflow else CamStatus.ok) := rfl
  by_cases h : src.overflow_count > 0
  · refine ⟨by simp [hs, h]; omega, by simp [hs, h], fun _ => ?_⟩
    have htr : run_single_capture src cnn_size rgb_size
        = [AppEvent.evCapture, AppEvent.evHalt] := by
      unfold run_single_capture
      simp [camera_utils_capture, h]
    rw [htr]
    exact ⟨by decide, by decide, by decide⟩
  · have h0 : src.overflow_count = 0 := by omega
    refine ⟨by simp [hs, h]; omega, by simp [hs, h], fun hc => absurd h0 hc⟩

/-- C4 witness: a 1×1 source whose overflow counter reads 1 yields the
overflow status and an accelerator-free trace. -/
theorem camera_overflow_terminal_witness :
    ((camera_utils_capture ⟨1, 1, fun _ _ => 0, 1⟩ false 1 false 2).status =
        CamStatus.overflow ↔ (1 : Nat) ≠ 0) ∧
    AppEvent.evCnnStart ∉ run_single_capture ⟨1, 1, fun _ _ => 0, 1⟩ 1 2 := by
  have h := camera_overflow_terminal ⟨1, 1, fun _ _ => 0, 1⟩ false false 1 2
  exact ⟨h.1, (h.2.2 (by decide)).1⟩

/-- Every CNN-buffer store produced by the capture loop lands at an
index strictly below the declared capacity. -/
lemma camera_cnn_writes_bounds (px : List (Nat × Nat × Nat)) (cnt size : Nat) :
    ∀ wr ∈ camera_cnn_writes px cnt size, wr.1 < size := by
  induction px generalizing cnt with
  | nil => intro wr hwr; simp [camera_cnn_writes] at hwr
  | cons p rest ih =>
    obtain ⟨r, g, b⟩ := p
    intro wr hwr
    unfold camera_cnn_writes at hwr
    by_cases h : cnt < size
    · rw [if_pos h] at hwr
      rcases List.mem_cons.mp hwr with h1 | h1
      · subst h1; exact h
      · exact ih (cnt + 1) wr h1
    · rw [if_neg h] at hwr
      exact ih cnt wr hwr

/-- The capture loop stores exactly `min (pixels) (capacity - cnt)`
CNN words: out-of-capacity samples are dropped, not written. -/
lemma camera_cnn_writes_length (px : List (Nat × Nat × Nat)) (cnt size : Nat) :
    (camera_cnn_writes px cnt size).length = min px.length (size - cnt) := by
  induction px generalizing cnt with
  | nil => simp [camera_cnn_writes]
  | cons p rest ih =>
    obtain ⟨r, g, b⟩ := p
    unfold camera_cnn_writes
    by_cases h : cnt < size
    · rw [if_pos h]
      simp only [List.length_cons, ih (cnt + 1)]
      omega
    · rw [if_neg h]
      rw [ih cnt]
      simp only [List.length_cons]
      omega

/-- Every display-buffer store of one row lands at a byte index
strictly below the declared capacity. -/
lemma camera_rgb_writes_row_bounds (px : List (Nat × Nat × Nat)) (j size : Nat) :
    ∀ wr ∈ camera_rgb_writes_row px j size, wr.1 < size := by
  induction px generalizing j with
  | nil => intro wr hwr; simp [camera_rgb_writes_row] at hwr
  | cons p rest ih =>
    obtain ⟨r, g, b⟩ := p
    intro wr hwr
    unfold camera_rgb_writes_row at hwr
    by_cases h : j + 1 < size
    · rw [if_pos h] at hwr
      rcases List.mem_cons.mp hwr with h1 | h1
      · subst h1; omega
      rcases List.mem_cons.mp h1 with h2 | h2
      · subst h2; omega
      · exact ih (j + 2) wr h2
    · rw [if_neg h] at hwr
      exact ih j wr hwr

/-- The number of samples produced by a pass is `width × height`. -/
lemma camera_capture_pixels_length (src : CamSource) :
    (camera_capture_pixels src).length = src.h * src.w := by
  unfold camera_capture_pixels camera_row_pixels
  rw [List.length_flatMap]
  have h1 : List.map (List.length ∘ fun row =>
      (List.range src.w).map fun col =>
        (src.line row (4 * col) % 256,
         src.line row (4 * col + 1) % 256,
         src.line row (4 * col + 2) % 256)) (List.range src.h)
      = List.map (fun _ => src.w) (List.range src.h) :=
    List.map_congr_left fun a _ => by simp
  rw [h1]
  simp [List.map_const']

/-- C5: bounds-clamped writes — for every source and every declared
capacity, `camera_utils_capture` never stores to the CNN buffer at a
flat index `≥ cnn_buffer_size` nor to the display buffer at a byte
index `≥ rgb565_size`; samples beyond the CNN capacity are silently
dropped (exactly `min (w*h) cnn_buffer_size` CNN words are stored). -/
theorem camera_capture_bounds (src : CamSource) (cnnIsNull rgbIsNull : Bool)
    (cnn_size rgb_size : Nat) :
    (∀ wr ∈ (camera_utils_capture src cnnIsNull cnn_size rgbIsNull rgb_size).cnnWrites,
      wr.1 < cnn_size) ∧
    (∀ wr ∈ (camera_utils_capture src cnnIsNull cnn_size rgbIsNull rgb_size).rgbWrites,
      wr.1 < rgb_size) ∧
    (camera_utils_capture src cnnIsNull cnn_size rgbIsNull rgb_size).cnnWrites.length
      = min (src.w * src.h) cnn_size := by
  refine ⟨?_, ?_, ?_⟩
  · intro wr hwr
    exact camera_cnn_writes_bounds _ 0 cnn_size wr hwr
  · intro wr hwr
    unfold camera_utils_capture at hwr
    by_cases h : rgbIsNull
    · simp [h] at hwr
    · simp only [h, if_false] at hwr
      unfold camera_rgb_writes at hwr
      rcases List.mem_flatMap.mp hwr with ⟨row, -, hmem⟩
      exact camera_rgb_writes_row_bounds _ 0 rgb_size wr hmem
  · show (camera_cnn_writes (camera_capture_pixels src) 0 cnn_size).length = _
    rw [camera_cnn_writes_length, camera_capture_pixels_length, Nat.mul_comm]
    omega

/-- C5 witness: a 2×1 source against a CNN capacity of 1 and a display
capacity of 2 keeps every store in bounds and stores exactly one CNN
word (the second sample is dropped). -/
theorem camera_capture_bounds_witness :
    ((0, pixel_pack 0 0 0) ∈
      (camera_utils_capture ⟨2, 1, fun _ _ => 0, 0⟩ false 1 false 2).cnnWrites →
      (0 : Nat) < 1) ∧
    (camera_utils_capture ⟨2, 1, fun _ _ => 0, 0⟩ false 1 false 2).cnnWrites.length
      = min (2 * 1) 1 :=
  ⟨fun hmem =>
    (camera_capture_bounds ⟨2, 1, fun _ _ => 0, 0⟩ false false 1 2).1 _ hmem,
   (camera_capture_bounds ⟨2, 1, fun _ _ => 0, 0⟩ false false 1 2).2.2⟩

/-! ## FrameExporter  (serial_stream.c)

Each exporter decodes every CNN word via XOR `0x00808080` and byte
unpacking, then renders text; output is modelled as the emitted
`List Char`.  A NULL `cnn_buffer` is modelled by the `isNull` flag;
each exporter returns before emitting anything when it is set
(serial_stream.c lines 58-60, 96-98, 131-133). -/

/-- Red channel of a CNN word as the exporters decode it. -/
def cnn_word_r (wd : Nat) : Nat := (wd ^^^ 0x00808080) &&& 0xFF

/-- Green channel of a CNN word as the exporters decode it. -/
def cnn_word_g (wd : Nat) : Nat := ((wd ^^^ 0x00808080) >>> 8) &&& 0xFF

/-- Blue channel of a CNN word as the exporters decode it. -/
def cnn_word_b (wd : Nat) : Nat := ((wd ^^^ 0x00808080) >>> 16) &&& 0xFF

/-- Output of `printf("%d %d %d ", r, g, b)` for one pixel plus the
newline inserted after every 8th column (serial_stream.c lines 80-85). -/
def ppm_pixel_chars (buf : Nat → Nat) (w row col : Nat) : List Char :=
  let wd := buf (row * w + col)
  (Nat.repr (cnn_word_r wd) ++ " " ++ Nat.repr (cnn_word_g wd) ++ " " ++
    Nat.repr (cnn_word_b wd) ++ " ").toList ++
  (if (col + 1) % 8 = 0 then ['\n'] else [])

/-- Model of `serial_stream_ppm`: P3 header, comment, dimensions, depth,
then decimal triples row-major with the 8-column and per-row breaks. -/
def serial_stream_ppm (buf : Nat → Nat) (w h : Nat) (isNull : Bool) :
    List Char :=
  if isNull then [] else
    ("P3\n" ++ "# Captured from MAX78000 CNN\n" ++
      Nat.repr w ++ " " ++ Nat.repr h ++ "\n" ++ "255\n").toList ++
    (List.range h).flatMap fun row =>
      ((List.range w).flatMap fun col => ppm_pixel_chars buf w row col) ++ ['\n']

/-- Uppercase hexadecimal digits used by `printf("%02X...")`. -/
def hex_digits : List Char := "0123456789ABCDEF".toList

/-- Two-digit uppercase rendering of one byte (`%02X`; every argument
passed in the source is a byte, so two digits are always exact). -/
def byte_hex (n : Nat) : List Char :=
  [hex_digits.getD (n / 16 % 16) '0', hex_digits.getD (n % 16) '0']

/-- Model of `serial_stream_hex`: banner, size line, six uppercase hex
digits per pixel with one row per line, trailer banner. -/
def serial_stream_hex (buf : Nat → Nat) (w h : Nat) (isNull : Bool) :
    List Char :=
  if isNull then [] else
    ("=== HEX IMAGE DATA ===\n" ++ "Size: " ++ Nat.repr w ++ "x" ++
      Nat.repr h ++ "\n").toList ++
    ((List.range h).flatMap fun row =>
      ((List.range w).flatMap fun col =>
        byte_hex (cnn_word_r (buf (row * w + col))) ++
        byte_hex (cnn_word_g (buf (row * w + col))) ++
        byte_hex (cnn_word_b (buf (row * w + col)))) ++ ['\n']) ++
    "=== END HEX DATA ===\n".toList

/-- The 64-character alphabet of serial_stream.c lines 120-121. -/
def base64_table : List Char :=
  "ABCDEFGHIJKLMNOPQRSTUVWXYZabcdefghijklmnopqrstuvwxyz0123456789+/".toList

/-- One output character of the base64 encoder (all indices passed are
`< 64`, so the default is never used). -/
def b64_char (n : Nat) : Char := base64_table.getD n 'A'

/-- The four characters emitted for a full triplet
(serial_stream.c lines 154-157). -/
def b64_group (t0 t1 t2 : Nat) : List Char :=
  [b64_char ((t0 >>> 2) &&& 0x3F),
   b64_char (((t0 &&& 0x03) <<< 4) ||| ((t1 >>> 4) &&& 0x0F)),
   b64_char (((t1 &&& 0x0F) <<< 2) ||| ((t2 >>> 6) &&& 0x03)),
   b64_char (t2 &&& 0x3F)]

/-- Trailing-bytes handling of serial_stream.c lines 172-187: remaining
bytes are zero-padded, the first two characters are always emitted, the
third is a character for 2 leftover bytes and `=` for 1, the fourth is
always `=`.  The triplet buffer never holds 3 or more pending bytes at
the end of the loop; longer lists are unreachable. -/
def b64_tail : List Nat → List Char
  | [] => []
  | [a] =>
    [b64_char ((a >>> 2) &&& 0x3F),
     b64_char (((a &&& 0x03) <<< 4) ||| (((0 : Nat) >>> 4) &&& 0x0F)),
     '=', '=']
  | [a, b] =>
    [b64_char ((a >>> 2) &&& 0x3F),
     b64_char (((a &&& 0x03) <<< 4) ||| ((b >>> 4) &&& 0x0F)),
     b64_char (((b &&& 0x0F) <<< 2) ||| (((0 : Nat) >>> 6) &&& 0x03)),
     '=']
  | _ => []

/-- Per-byte state machine of serial_stream.c lines 149-168: push each
byte into `triplet`; at 3 pending bytes emit 4 characters, advance
`line_len` by 4 and break the line when it reaches 76. -/
def b64_loop : List Nat → List Nat → Nat → List Char
  | [], triplet, _ => b64_tail triplet
  | byte :: rest, triplet, line_len =>
    let t := triplet ++ [byte]
    if t.length = 3 then
      let cs := b64_group (t.getD 0 0) (t.getD 1 0) (t.getD 2 0)
      if line_len + 4 ≥ 76 then cs ++ '\n' :: b64_loop rest [] 0
      else cs ++ b64_loop rest [] (line_len + 4)
    else b64_loop rest t line_len

/-- The R,G,B byte stream of a frame in row-major order, as the base64
exporter consumes it (serial_stream.c lines 138-150). -/
def frame_rgb_bytes (buf : Nat → Nat) (w h : Nat) : List Nat :=
  (List.range h).flatMap fun row =>
    (List.range w).flatMap fun col =>
      [cnn_word_r (buf (row * w + col)),
       cnn_word_g (buf (row * w + col)),
       cnn_word_b (buf (row * w + col))]

/-- Model of `serial_stream_base64`: start marker line, dimensions
line, encoded body, newline, end marker line. -/
def serial_stream_base64 (buf : Nat → Nat) (w h : Nat) (isNull : Bool) :
    List Char :=
  if isNull then [] else
    "<<<BASE64_IMG_START>>>\n".toList ++
    ("WIDTH:" ++ Nat.repr w ++ ",HEIGHT:" ++ Nat.repr h ++ "\n").toList ++
    b64_loop (frame_rgb_bytes buf w h) [] 0 ++
    "\n<<<BASE64_IMG_END>>>\n".toList

/-- Modelled from the spec (section 4.5): reference base64 encoder —
3 bytes become the 24-bit group `a*65536 + b*256 + c` rendered as four
alphabet characters of 6 bits each, a final partial group of 2 or 1
bytes is zero-padded and rendered with `=` or `==`, and a line break is
forced after every 76 output characters. -/
def base64_spec : List Nat → Nat → List Char
  | a :: b :: c :: rest, line_len =>
    let n := a * 65536 + b * 256 + c
    let cs := [b64_char ((n >>> 18) &&& 63), b64_char ((n >>> 12) &&& 63),
               b64_char ((n >>> 6) &&& 63), b64_char (n &&& 63)]
    if line_len + 4 ≥ 76 then cs ++ '\n' :: base64_spec rest 0
    else cs ++ base64_spec rest (line_len + 4)
  | [a, b], _ =>
    let n := a * 65536 + b * 256
    [b64_char ((n >>> 18) &&& 63), b64_char ((n >>> 12) &&& 63),
     b64_char ((n >>> 6) &&& 63), '=']
  | [a], _ =>
    let n := a * 65536
    [b64_char ((n >>> 18) &&& 63), b64_char ((n >>> 12) &&& 63), '=', '=']
  | [], _ => []

/-- Masking with `0x3F` is reduction mod 64. -/
lemma and_63_eq_mod (x : Nat) : x &&& 63 = x % 64 := by
  have h := Nat.and_pow_two_sub_one_eq_mod x 6
  norm_num at h
  exact h

/-- Masking with `0x0F` is reduction mod 16. -/
lemma and_15_eq_mod (x : Nat) : x &&& 15 = x % 16 := by
  have h := Nat.and_pow_two_sub_one_eq_mod x 4
  norm_num at h
  exact h

/-- Masking with `0x03` is reduction mod 4. -/
lemma and_3_eq_mod (x : Nat) : x &&& 3 = x % 4 := by
  have h := Nat.and_pow_two_sub_one_eq_mod x 2
  norm_num at h
  exact h

/-- Bitwise or of a left-shifted value with a value fitting in the
shift width is addition. -/
lemma shiftLeft_lor_eq_add (x y k : Nat) (hy : y < 2 ^ k) :
    (x <<< k) ||| y = x * 2 ^ k + y := by
  have hmod : ((x <<< k) ||| y) % 2 ^ k = y := by
    rw [lor_mod_two_pow]
    have h1 : x <<< k % 2 ^ k = 0 := by
      rw [Nat.shiftLeft_eq]
      exact Nat.mul_mod_left x (2 ^ k)
    rw [h1, Nat.mod_eq_of_lt hy, Nat.zero_or]
  have hdiv : ((x <<< k) ||| y) / 2 ^ k = x := by
    have hd := lor_shiftRight (x <<< k) y k
    rw [Nat.shiftRight_eq_div_pow, Nat.shiftRight_eq_div_pow,
      Nat.shiftRight_eq_div_pow] at hd
    rw [hd, Nat.shiftLeft_eq, Nat.mul_div_cancel _ (Nat.pos_pow_of_pos k (by omega)),
      Nat.div_eq_of_lt hy, Nat.or_zero]
  have hdm := Nat.div_add_mod ((x <<< k) ||| y) (2 ^ k)
  rw [hdiv, hmod] at hdm
  rw [← hdm, Nat.mul_comm]

/-- The four source-level characters of a full triplet agree with the
24-bit-group rendering of the reference encoder. -/
lemma b64_group_eq (t0 t1 t2 : Nat) (h0 : t0 < 256) (h1 : t1 < 256)
    (h2 : t2 < 256) :
    b64_group t0 t1 t2 =
    [b64_char (((t0 * 65536 + t1 * 256 + t2) >>> 18) &&& 63),
     b64_char (((t0 * 65536 + t1 * 256 + t2) >>> 12) &&& 63),
     b64_char (((t0 * 65536 + t1 * 256 + t2) >>> 6) &&& 63),
     b64_char ((t0 * 65536 + t1 * 256 + t2) &&& 63)] := by
  have p18 : (2 : Nat) ^ 18 = 262144 := by norm_num
  have p12 : (2 : Nat) ^ 12 = 4096 := by norm_num
  have p6 : (2 : Nat) ^ 6 = 64 := by norm_num
  have p4 : (2 : Nat) ^ 4 = 16 := by norm_num
  have p2a : (2 : Nat) ^ 2 = 4 := by norm_num
  unfold b64_group
  have e0 : (t0 >>> 2) &&& 63 = ((t0 * 65536 + t1 * 256 + t2) >>> 18) &&& 63 := by
    rw [and_63_eq_mod, and_63_eq_mod, Nat.shiftRight_eq_div_pow,
      Nat.shiftRight_eq_div_pow, p18, p2a]
    omega
  have e1 : ((t0 &&& 3) <<< 4) ||| ((t1 >>> 4) &&& 15)
      = ((t0 * 65536 + t1 * 256 + t2) >>> 12) &&& 63 := by
    have hy : (t1 >>> 4) &&& 15 < 2 ^ 4 := by
      rw [and_15_eq_mod, p4]
      omega
    rw [shiftLeft_lor_eq_add _ _ 4 hy, and_3_eq_mod, and_15_eq_mod,
      and_63_eq_mod, Nat.shiftRight_eq_div_pow, Nat.shiftRight_eq_div_pow,
      p12, p4]
    omega
  have e2 : ((t1 &&& 15) <<< 2) ||| ((t2 >>> 6) &&& 3)
      = ((t0 * 65536 + t1 * 256 + t2) >>> 6) &&& 63 := by
    have hy : (t2 >>> 6) &&& 3 < 2 ^ 2 := by
      rw [and_3_eq_mod, p2a]
      omega
    rw [shiftLeft_lor_eq_add _ _ 2 hy, and_15_eq_mod, and_3_eq_mod,
      and_63_eq_mod, Nat.shiftRight_eq_div_pow, Nat.shiftRight_eq_div_pow,
      p6, p2a]
    omega
  have e3 : t2 &&& 63 = (t0 * 65536 + t1 * 256 + t2) &&& 63 := by
    rw [and_63_eq_mod, and_63_eq_mod]
    omega
  rw [e0, e1, e2, e3]

/-- The per-byte state machine of the source is extensionally the
reference 3-bytes-to-4-characters encoder, for any byte stream and any
starting line length. -/
lemma b64_loop_eq_spec : ∀ (n : Nat) (bytes : List Nat), bytes.length ≤ n →
    (∀ x ∈ bytes, x < 256) → ∀ line_len,
    b64_loop bytes [] line_len = base64_spec bytes line_len := by
  intro n
  induction n with
  | zero =>
    intro bytes hlen hb line_len
    have hnil : bytes = [] := List.eq_nil_of_length_eq_zero (by omega)
    subst hnil
    rfl
  | succ n ih =>
    intro bytes hlen hb line_len
    match bytes with
    | [] => rfl
    | [a] =>
      have ha : a < 256 := hb a (by simp)
      have hg := b64_group_eq a 0 0 ha (by omega) (by omega)
      simp only [b64_group, List.cons.injEq, and_true] at hg
      obtain ⟨e0, e1, -, -⟩ := hg
      show [b64_char ((a >>> 2) &&& 0x3F),
            b64_char (((a &&& 0x03) <<< 4) ||| (((0 : Nat) >>> 4) &&& 0x0F)),
            '=', '='] =
          [b64_char (((a * 65536) >>> 18) &&& 63),
           b64_char (((a * 65536) >>> 12) &&& 63), '=', '=']
      rw [e0, e1]
      norm_num
    | [a, b] =>
      have ha : a < 256 := hb a (by simp)
      have hbb : b < 256 := hb b (by simp)
      have hg := b64_group_eq a b 0 ha hbb (by omega)
      simp only [b64_group, List.cons.injEq, and_true] at hg
      obtain ⟨e0, e1, e2, -⟩ := hg
      show [b64_char ((a >>> 2) &&& 0x3F),
            b64_char (((a &&& 0x03) <<< 4) ||| ((b >>> 4) &&& 0x0F)),
            b64_char (((b &&& 0x0F) <<< 2) ||| (((0 : Nat) >>> 6) &&& 0x03)),
            '='] =
          [b64_char (((a * 65536 + b * 256) >>> 18) &&& 63),
           b64_char (((a * 65536 + b * 256) >>> 12) &&& 63),
           b64_char (((a * 65536 + b * 256) >>> 6) &&& 63), '=']
      rw [e0, e1, e2]
      norm_num
    | a :: b :: c :: rest =>
      have ha : a < 256 := hb a (by simp)
      have hbb : b < 256 := hb b (by simp)
      have hc : c < 256 := hb c (by simp)
      have hrest : ∀ x ∈ rest, x < 256 := fun x hx => hb x (by simp [hx])
      have hlen' : rest.length ≤ n := by
        simp only [List.length_cons] at hlen
        omega
      show (if line_len + 4 ≥ 76 then
              b64_group a b c ++ '\n' :: b64_loop rest [] 0
            else b64_group a b c ++ b64_loop rest [] (line_len + 4))
          = (if line_len + 4 ≥ 76 then
              [b64_char (((a * 65536 + b * 256 + c) >>> 18) &&& 63),
               b64_char (((a * 65536 + b * 256 + c) >>> 12) &&& 63),
               b64_char (((a * 65536 + b * 256 + c) >>> 6) &&& 63),
               b64_char ((a * 65536 + b * 256 + c) &&& 63)] ++
                '\n' :: base64_spec rest 0
            else
              [b64_char (((a * 65536 + b * 256 + c) >>> 18) &&& 63),
               b64_char (((a * 65536 + b * 256 + c) >>> 12) &&& 63),
               b64_char (((a * 65536 + b * 256 + c) >>> 6) &&& 63),
               b64_char ((a * 65536 + b * 256 + c) &&& 63)] ++
                base64_spec rest (line_len + 4))
      rw [b64_group_eq a b c ha hbb hc]
      by_cases hll : line_len + 4 ≥ 76
      · rw [if_pos hll, if_pos hll, ih rest hlen' hrest 0]
      · rw [if_neg hll, if_neg hll, ih rest hlen' hrest (line_len + 4)]

/-- Every byte the base64 exporter feeds to the encoder is below 256. -/
lemma frame_rgb_bytes_lt (buf : Nat → Nat) (w h : Nat) :
    ∀ x ∈ frame_rgb_bytes buf w h, x < 256 := by
  intro x hx
  unfold frame_rgb_bytes at hx
  rcases List.mem_flatMap.mp hx with ⟨row, -, hx1⟩
  rcases List.mem_flatMap.mp hx1 with ⟨col, -, hx2⟩
  have hr : cnn_word_r (buf (row * w + col)) < 256 := by
    unfold cnn_word_r
    rw [and_255_eq_mod]
    omega
  have hg : cnn_word_g (buf (row * w + col)) < 256 := by
    unfold cnn_word_g
    rw [and_255_eq_mod]
    omega
  have hbb : cnn_word_b (buf (row * w + col)) < 256 := by
    unfold cnn_word_b
    rw [and_255_eq_mod]
    omega
  simp only [List.mem_cons, List.mem_singleton] at hx2
  rcases hx2 with h | h | h | h
  · rw [h]; exact hr
  · rw [h]; exact hg
  · rw [h]; exact hbb
  · exact absurd h (List.not_mem_nil x)

set_option maxRecDepth 8192 in
/-- C6: base64 export — for every frame the exporter emits the start
marker line, the `WIDTH:<w>,HEIGHT:<h>` line, the R,G,B byte stream of
the frame (row-major) rendered by the standard 3-bytes-to-4-characters
encoder with `=` padding for a final partial group and a line break
after every 76 output characters, then a newline and the end marker
line; a 1-pixel frame with channels (255, 0, 128) produces exactly 4
body characters with no padding. -/
theorem serial_stream_base64_correct :
    (∀ (buf : Nat → Nat) (w h : Nat),
      serial_stream_base64 buf w h false =
        "<<<BASE64_IMG_START>>>\n".toList ++
        ("WIDTH:" ++ Nat.repr w ++ ",HEIGHT:" ++ Nat.repr h ++ "\n").toList ++
        base64_spec (frame_rgb_bytes buf w h) 0 ++
        "\n<<<BASE64_IMG_END>>>\n".toList) ∧
    (base64_spec (frame_rgb_bytes (fun _ => pixel_pack 255 0 128) 1 1) 0).length
      = 4 ∧
    '=' ∉ base64_spec (frame_rgb_bytes (fun _ => pixel_pack 255 0 128) 1 1) 0 := by
  refine ⟨?_, by decide, by decide⟩
  intro buf w h
  unfold serial_stream_base64
  rw [if_neg (by simp)]
  rw [b64_loop_eq_spec (frame_rgb_bytes buf w h).length _ (le_refl _)
    (frame_rgb_bytes_lt buf w h) 0]

/-! ## AsciiPreview  (display_utils.c)

Each renderer clamps `ratio` to at least 1, samples every `ratio`-th
column and every `2*ratio`-th row, converts the sample to luminance
`(77*R + 150*G + 29*B) >> 8`, maps it to `char_idx = (Y*(N-1))/255`
into an `N`-character ramp and prints `bstr[(N-1) - char_idx]`.
Output is modelled as the emitted `List Char`; a NULL image argument is
the `isNull` flag (early return, display_utils.c lines 38-40, 92-94,
140-142). -/

/-- The 10-glyph standard ramp of display_utils.c line 21 (ordered
dark/dense first, bright/sparse last). -/
def BRIGHTNESS_STANDARD : List Char := "@%#*+=-:. ".toList

/-- The 70-glyph extended ramp of display_utils.c lines 17-18 (ordered
dark to bright).  The last few characters are spelled by code point to
keep the embedding printable: 34 is the double quote, 96 the backtick,
39 the apostrophe; `\x7b`/`\x7d` are the braces. -/
def BRIGHTNESS_EXTENDED : List Char :=
  "$@B%8&WM#*oahkbdpqwmZO0QLCJUYXzcvunxrjft/\\|()1\x7b\x7d[]?-_+~<>i!lI;:,".toList
  ++ [Char.ofNat 34, '^', Char.ofNat 96, Char.ofNat 39, '.', ' ']

/-- Fixed-point BT.601 luminance of display_utils.c line 68, with the
final `uint8_t` cast. -/
def luminance (r g b : Nat) : Nat :=
  ((77 * r + 150 * g + 29 * b) >>> 8) % 256

/-- Ramp lookup of display_utils.c lines 71-74:
`char_idx = (Y * (num_chars - 1)) / 255; bstr[(num_chars - 1) - char_idx]`. -/
def ascii_glyph (ramp : List Char) (y : Nat) : Char :=
  let char_idx := (y * (ramp.length - 1)) / 255
  ramp.getD ((ramp.length - 1) - char_idx) ' '

/-- The row (resp. column) indices visited by
`for (y = 0; y < limit; y += step)`: for `step ≥ 1` — guaranteed by the
ratio clamp in every caller — these are exactly the multiples of `step`
below `limit`, in increasing order. -/
def strided_coords (limit step : Nat) : List Nat :=
  (List.range limit).filter fun y => y % step = 0

/-- Model of `display_ascii_art` (display_utils.c lines 27-78): the
image is a byte buffer with 4 bytes `R,G,B,0` per pixel; a NULL
`brightness` argument selects the standard ramp; `ratio` is clamped to
at least 1; rows step by `2*ratio`, columns by `ratio`. -/
def display_ascii_art (img : Nat → Nat) (w h : Nat) (ratio : Int)
    (brightness : Option (List Char)) (isNull : Bool) : List Char :=
  if isNull then [] else
    let bstr := brightness.getD BRIGHTNESS_STANDARD
    let r := if ratio < 1 then 1 else ratio
    let x_step := r.toNat
    let y_step := (r * 2).toNat
    (strided_coords h y_step).flatMap fun y =>
      ((strided_coords w x_step).map fun x =>
        ascii_glyph bstr
          (luminance (img ((y * w + x) * 4) % 256)
            (img ((y * w + x) * 4 + 1) % 256)
            (img ((y * w + x) * 4 + 2) % 256))) ++ ['\n']

/-- Model of `display_ascii_art_from_cnn` (display_utils.c lines
80-126): reads packed CNN words, decodes them, always uses the standard
ramp. -/
def display_ascii_art_from_cnn (buf : Nat → Nat) (w h : Nat) (ratio : Int)
    (isNull : Bool) : List Char :=
  if isNull then [] else
    let r := if ratio < 1 then 1 else ratio
    let x_step := r.toNat
    let y_step := (r * 2).toNat
    (strided_coords h y_step).flatMap fun y =>
      ((strided_coords w x_step).map fun x =>
        ascii_glyph BRIGHTNESS_STANDARD
          (luminance (cnn_word_r (buf (y * w + x)))
            (cnn_word_g (buf (y * w + x)))
            (cnn_word_b (buf (y * w + x))))) ++ ['\n']

/-- Model of `display_ascii_art_detailed` (display_utils.c lines
128-169): as `display_ascii_art_from_cnn` but with the 70-glyph
extended ramp. -/
def display_ascii_art_detailed (buf : Nat → Nat) (w h : Nat) (ratio : Int)
    (isNull : Bool) : List Char :=
  if isNull then [] else
    let r := if ratio < 1 then 1 else ratio
    let x_step := r.toNat
    let y_step := (r * 2).toNat
    (strided_coords h y_step).flatMap fun y =>
      ((strided_coords w x_step).map fun x =>
        ascii_glyph BRIGHTNESS_EXTENDED
          (luminance (cnn_word_r (buf (y * w + x)))
            (cnn_word_g (buf (y * w + x)))
            (cnn_word_b (buf (y * w + x))))) ++ ['\n']

/-- C7: endpoint mapping of the ASCII preview at ratio 1 with the
10-glyph standard ramp, evaluated at the failing inputs — the rendered
character for luminance 0 (a black pixel) is the ramp's LAST character
(the space, sparsest glyph), not its first as the claim states, and the
character for luminance 255 (a white pixel) is the ramp's FIRST
character `@` (densest glyph), not its last: the double inversion
`bstr[(N-1) - (Y*(N-1))/255]` over a dark-to-bright ramp maps black to
sparse and white to dense, contradicting the claim and the source's own
comment (display_utils.c line 73). -/
theorem ascii_endpoint_mapping_bug :
    display_ascii_art_from_cnn (fun _ => pixel_pack 0 0 0) 1 1 1 false
      = [' ', '\n'] ∧
    display_ascii_art_from_cnn (fun _ => pixel_pack 255 255 255) 1 1 1 false
      = ['@', '\n'] ∧
    BRIGHTNESS_STANDARD.getD 0 ' ' = '@' ∧
    BRIGHTNESS_STANDARD.getD 9 '@' = ' ' := by
  refine ⟨by decide, by decide, by decide, by decide⟩

/-- C10: ratio clamping — for every frame and every `ratio < 1`, all
three ASCII renderers produce exactly the output they produce at
ratio 1. -/
theorem ascii_ratio_clamped (img buf : Nat → Nat) (w h : Nat) (ratio : Int)
    (brightness : Option (List Char)) (isNull : Bool) (hr : ratio < 1) :
    display_ascii_art img w h ratio brightness isNull
      = display_ascii_art img w h 1 brightness isNull ∧
    display_ascii_art_from_cnn buf w h ratio isNull
      = display_ascii_art_from_cnn buf w h 1 isNull ∧
    display_ascii_art_detailed buf w h ratio isNull
      = display_ascii_art_detailed buf w h 1 isNull := by
  have hc : (if ratio < 1 then (1 : Int) else ratio) = 1 := if_pos hr
  have hc1 : (if (1 : Int) < 1 then (1 : Int) else 1) = 1 := by norm_num
  refine ⟨?_, ?_, ?_⟩
  · unfold display_ascii_art
    rw [hc, hc1]
  · unfold display_ascii_art_from_cnn
    rw [hc, hc1]
  · unfold display_ascii_art_detailed
    rw [hc, hc1]

/-- C10 witness: at ratio 0 the CNN-buffer renderer agrees with
ratio 1 on a concrete 1×1 frame. -/
theorem ascii_ratio_clamped_witness :
    display_ascii_art_from_cnn (fun _ => 0) 1 1 0 false
      = display_ascii_art_from_cnn (fun _ => 0) 1 1 1 false :=
  (ascii_ratio_clamped (fun _ => 0) (fun _ => 0) 1 1 0 none false
    (by decide)).2.1

/-! ## Null-buffer behaviour  (claim C8)

`serial_stream_ppm` / `serial_stream_hex` / `serial_stream_base64`
(serial_stream.c lines 58-60, 96-98, 131-133) and all three ASCII
renderers (display_utils.c lines 38-40, 92-94, 140-142) return before
emitting anything when their buffer argument is NULL, and
`camera_utils_capture` guards its display-buffer stores with
`rgb565_buffer != NULL` (camera_utils.c line 99) — but its CNN-buffer
store at lines 91-95 checks only `cnt < cnn_buffer_size`, never
`cnn_buffer` itself. -/

/-- C8 counterexample: `camera_utils_capture` called with a NULL
`cnn_buffer` (and a positive `cnn_buffer_size`, here 1, on a 1×1
source) still performs a CNN-buffer store — the claim that no buffer
write happens when `cnn_buffer` is NULL is false; the store at
camera_utils.c line 93 dereferences the NULL pointer. -/
theorem camera_capture_null_cnn_writes :
    (camera_utils_capture ⟨1, 1, fun _ _ => 0, 0⟩ true 1 false 2).cnnWrites
      = [(0, pixel_pack 0 0 0)] ∧
    (camera_utils_capture ⟨1, 1, fun _ _ => 0, 0⟩ true 1 false 2).cnnWrites
      ≠ [] := by
  refine ⟨by decide, by decide⟩

/-- C8 (amended): every exporter and renderer produces no output on a
NULL buffer, and `camera_utils_capture` performs no display-buffer
store when `rgb565_buffer` is NULL; `cnn_buffer`, however, is not
null-checked — the capture performs no CNN-buffer store only when
`cnn_buffer_size` is 0. -/
theorem null_buffer_handling :
    (∀ (buf : Nat → Nat) (w h : Nat), serial_stream_ppm buf w h true = []) ∧
    (∀ (buf : Nat → Nat) (w h : Nat), serial_stream_hex buf w h true = []) ∧
    (∀ (buf : Nat → Nat) (w h : Nat), serial_stream_base64 buf w h true = []) ∧
    (∀ (img : Nat → Nat) (w h : Nat) (ratio : Int)
      (brightness : Option (List Char)),
      display_ascii_art img w h ratio brightness true = []) ∧
    (∀ (buf : Nat → Nat) (w h : Nat) (ratio : Int),
      display_ascii_art_from_cnn buf w h ratio true = []) ∧
    (∀ (buf : Nat → Nat) (w h : Nat) (ratio : Int),
      display_ascii_art_detailed buf w h ratio true = []) ∧
    (∀ (src : CamSource) (cnnIsNull : Bool) (cs rs : Nat),
      (camera_utils_capture src cnnIsNull cs true rs).rgbWrites = []) ∧
    (∀ (src : CamSource) (cnnIsNull rgbIsNull : Bool) (rs : Nat),
      (camera_utils_capture src cnnIsNull 0 rgbIsNull rs).cnnWrites = []) := by
  refine ⟨fun buf w h => rfl, fun buf w h => rfl, fun buf w h => rfl,
    fun img w h ratio brightness => rfl, fun buf w h ratio => rfl,
    fun buf w h ratio => rfl, fun src cnnIsNull cs rs => rfl,
    fun src cnnIsNull rgbIsNull rs => ?_⟩
  apply List.eq_nil_of_length_eq_zero
  show (camera_cnn_writes (camera_capture_pixels src) 0 0).length = 0
  rw [camera_cnn_writes_length]
  omega
